import Mathlib

/-!
Verification development for the ACT4E conformance-testing harness
(`act4e_checks/data.py`).  The Python module is shallowly embedded:

* YAML-like values become the inductive type `Val` (Python `None`, `int`,
  `float`, `bool`, `datetime`, `str`, `dict`, `list`, `tuple`, plus an
  `other` constructor standing for any other runtime type, carrying its
  type name).  Mappings are association lists `List (String × Val)`;
  Python dictionaries have unique keys, which is expressed by `Nodup`
  hypotheses where relevant.
* Fallible code (`raise ZValueError`) becomes `Except LoadErr _`.
* The mutable `TestContext` failure accumulator becomes an explicit
  `List Failure` threaded through `loadit_` / `dumpit_`, and Python's
  exception hierarchy is embedded in the type `PyExc` together with the
  predicate `PyExc.isException` (true exactly for subclasses of
  `Exception`, false for other `BaseException` subclasses such as
  `KeyboardInterrupt` and `SystemExit`).
-/

/-- A Python/YAML runtime value as handled by `act4e_checks/data.py`.
`other tname` stands for a value of any runtime type outside the
explicitly handled ones, remembering only its type name (which is all
`check_good_output` uses of it). -/
inductive Val where
  | none : Val
  | int (n : Int) : Val
  | float (payload : Int) : Val
  | bool (b : Bool) : Val
  | datetime (payload : Nat) : Val
  | str (s : String) : Val
  | map (kvs : List (String × Val)) : Val
  | list (xs : List Val) : Val
  | tuple (xs : List Val) : Val
  | other (tname : String) : Val
deriving Repr

/-- Association-list lookup, the embedding of Python `d[k]` / `k in d`
for string-keyed dictionaries (first matching key wins; parsed YAML
dictionaries have unique keys). -/
def alookup {β : Type} (k : String) : List (String × β) → Option β
  | [] => Option.none
  | (k', v) :: rest => if k' = k then some v else alookup k rest

/-- A violation recorded by `check_good_output` via `tc.fail`:
either the tuple-specific diagnostic ("You cannot use tuples for the
concrete representation ... Try using lists.") or the generic
disallowed-type diagnostic naming the offending runtime type. -/
inductive Violation where
  | tupleNotAllowed (x : Val) : Violation
  | disallowedType (tname : String) (x : Val) : Violation
deriving Repr

mutual
/-- Embedding of `check_good_output` (data.py:271): returns the list of
violations recorded on the test context, in recording order.  Tuples get
the tuple-specific diagnostic and are not recursed into; values outside
the allowed set `(int, float, bool, datetime, dict, list, str)` get the
generic diagnostic; lists recurse into elements and dicts into values. -/
def check_good_output : Val → List Violation
  | Val.tuple xs => [Violation.tupleNotAllowed (Val.tuple xs)]
  | Val.other tname => [Violation.disallowedType tname (Val.other tname)]
  | Val.none => [Violation.disallowedType "NoneType" Val.none]
  | Val.list xs => checkList xs
  | Val.map kvs => checkMapValues kvs
  | Val.int _ => []
  | Val.float _ => []
  | Val.bool _ => []
  | Val.datetime _ => []
  | Val.str _ => []

/-- The function `check_good_output` folded over the elements of a list
value. -/
def checkList : List Val → List Violation
  | [] => []
  | x :: xs => check_good_output x ++ checkList xs

/-- The function `check_good_output` folded over the values of a dict
value (keys are not checked). -/
def checkMapValues : List (String × Val) → List Violation
  | [] => []
  | (_, v) :: kvs => check_good_output v ++ checkMapValues kvs
end

/-- A Python exception, as classified by `loadit_` / `dumpit_`.
`otherException` is any other subclass of `Exception`;
`keyboardInterrupt` / `systemExit` / `otherBaseException` are
`BaseException` subclasses that are *not* `Exception` subclasses. -/
inductive PyExc where
  | notImplementedError : PyExc
  | invalidFormat : PyExc
  | implementationFail : PyExc
  | otherException (tname : String) : PyExc
  | keyboardInterrupt : PyExc
  | systemExit : PyExc
  | otherBaseException (tname : String) : PyExc
deriving Repr, DecidableEq

/-- Embedding of `isinstance(e, Exception)`: which branch of the Python exception
hierarchy the value sits in.  `except Exception` catches exactly those
with `isException = true`; `except BaseException` catches all. -/
def PyExc.isException : PyExc → Bool
  | PyExc.notImplementedError => true
  | PyExc.invalidFormat => true
  | PyExc.implementationFail => true
  | PyExc.otherException _ => true
  | PyExc.keyboardInterrupt => false
  | PyExc.systemExit => false
  | PyExc.otherBaseException _ => false

/-- A failure recorded on the `TestContext` by `dumpit_` / `loadit_`. -/
inductive Failure where
  | saveRaised : Failure
  | saveReturnedNone : Failure
  | outputViolation (v : Violation) : Failure
  | loadInvalidFormat : Failure
  | loadRaised (e : PyExc) : Failure
  | wrongReturnType : Failure
deriving Repr

/-- Terminal outcome of one verb invocation (`dumpit_` or `loadit_`):
a returned value, an exception propagating unchanged to the caller,
an `ImplementationFail` raised by the harness, or the exception raised
by `tc.raise_if_failures()` when failures accumulated. -/
inductive VerbOutcome where
  | success (v : Val) : VerbOutcome
  | propagate (e : PyExc) : VerbOutcome
  | implementationFail : VerbOutcome
  | failuresRaised : VerbOutcome
deriving Repr

/-- Embedding of `dumpit_` (data.py:235).  `tc0` is the failure list
already accumulated on the test context; `call` is the outcome of
`fsr.save(h, ob)` (a value, or a raised exception).  Returns the final
failure list and the verb outcome.  Only `Exception` subclasses are
caught and converted to `ImplementationFail`; other `BaseException`s
propagate unchanged. -/
def dumpit_ (tc0 : List Failure) (call : Except PyExc Val) :
    List Failure × VerbOutcome :=
  match call with
  | Except.error e =>
      if e.isException then (tc0 ++ [Failure.saveRaised], VerbOutcome.implementationFail)
      else (tc0, VerbOutcome.propagate e)
  | Except.ok res =>
      match res with
      | Val.none => (tc0 ++ [Failure.saveReturnedNone], VerbOutcome.implementationFail)
      | res =>
          let tc1 := tc0 ++ (check_good_output res).map Failure.outputViolation
          if tc1.isEmpty then (tc1, VerbOutcome.success res)
          else (tc1, VerbOutcome.failuresRaised)

/-- Embedding of `loadit_` (data.py:252).  `K` is the expected-type
check performed by `tc.expect_type2`; `call` is the outcome of
`loader.load(h, data)`.  `NotImplementedError` is re-raised unchanged;
`InvalidFormat` and then *any* `BaseException` are converted to
`ImplementationFail` after recording a failure. -/
def loadit_ (tc0 : List Failure) (K : Val → Bool) (call : Except PyExc Val) :
    List Failure × VerbOutcome :=
  match call with
  | Except.error PyExc.notImplementedError =>
      (tc0, VerbOutcome.propagate PyExc.notImplementedError)
  | Except.error PyExc.invalidFormat =>
      (tc0 ++ [Failure.loadInvalidFormat], VerbOutcome.implementationFail)
  | Except.error e =>
      (tc0 ++ [Failure.loadRaised e], VerbOutcome.implementationFail)
  | Except.ok res =>
      let tc1 := if K res then tc0 else tc0 ++ [Failure.wrongReturnType]
      if tc1.isEmpty then (tc1, VerbOutcome.success res)
      else (tc1, VerbOutcome.failuresRaised)

/-- A load-time corpus error (`raise ZValueError` in
`get_all_test_data` / `substitute`). -/
inductive LoadErr where
  | duplicateKey (k : String) : LoadErr
  | missingData (k : String) : LoadErr
  | unknownFields (remaining : List String) : LoadErr
  | extraRequires (extra : List String) : LoadErr
  | extraProperties (extra : List String) : LoadErr
  | extraTags (extra : List String) : LoadErr
  | cannotFindEntry : LoadErr
  | fieldNotMapping : LoadErr
  | recordNotMapping : LoadErr
deriving Repr, DecidableEq

mutual
/-- Embedding of `substitute` (data.py:160).  On a dict containing key
`"load"` it returns the corpus entry named by that key verbatim (error
"Cannot find entry to load" if absent; a non-string load target can
never be a key of the string-keyed `entries`, so it also errors);
on any other dict and on lists it recurses structurally; every other
value is returned unchanged. -/
def substitute (entries : List (String × Val)) : Val → Except LoadErr Val
  | Val.map kvs =>
      match alookup "load" kvs with
      | some (Val.str s) =>
          match alookup s entries with
          | some d => Except.ok d
          | Option.none => Except.error LoadErr.cannotFindEntry
      | some _ => Except.error LoadErr.cannotFindEntry
      | Option.none =>
          match substituteKVs entries kvs with
          | Except.ok kvs' => Except.ok (Val.map kvs')
          | Except.error e => Except.error e
  | Val.list xs =>
      match substituteList entries xs with
      | Except.ok xs' => Except.ok (Val.list xs')
      | Except.error e => Except.error e
  | v => Except.ok v

/-- The function `substitute` mapped over the elements of a list value. -/
def substituteList (entries : List (String × Val)) :
    List Val → Except LoadErr (List Val)
  | [] => Except.ok []
  | x :: xs =>
      match substitute entries x with
      | Except.error e => Except.error e
      | Except.ok x' =>
          match substituteList entries xs with
          | Except.error e => Except.error e
          | Except.ok xs' => Except.ok (x' :: xs')

/-- The function `substitute` mapped over the values of a dict value,
preserving the
keys and their order. -/
def substituteKVs (entries : List (String × Val)) :
    List (String × Val) → Except LoadErr (List (String × Val))
  | [] => Except.ok []
  | (k, v) :: kvs =>
      match substitute entries v with
      | Except.error e => Except.error e
      | Except.ok v' =>
          match substituteKVs entries kvs with
          | Except.error e => Except.error e
          | Except.ok kvs' => Except.ok ((k, v') :: kvs')
end

/-- Embedding of the dataclass `TestData` (data.py:20).  The three
metadata fields are dictionaries parsed from YAML (string keys, values
left as raw `Val`s, since the source never constrains them). -/
structure TestData where
  tags : List (String × Val)
  requires : List (String × Val)
  data : Val
  properties : List (String × Val)
deriving Repr

/-- Embedding of Python `set(ks) == {r}` for a list of dictionary
keys: nonempty and every
key equal to `r`. -/
def setEqSingleton (ks : List String) (r : String) : Bool :=
  !ks.isEmpty && ks.all (fun k => k == r)

/-- Embedding of `filter_reqs` (data.py:296): keeps exactly the records
whose `requires` key set equals the singleton `{req}`. -/
def filter_reqs (d : List (String × TestData)) (req : String) :
    List (String × TestData) :=
  d.filter (fun kv => setEqSingleton (kv.2.requires.map Prod.fst) req)

/-- Embedding of `ALLOWED_TAGS` (data.py:28). -/
def ALLOWED_TAGS : List String :=
  ["poset", "set", "semigroup", "monoid", "group", "relation", "map",
   "dp", "category", "natural_transform"]

/-- Embedding of `ALLOWED_PROPERTIES` (data.py:40). -/
def ALLOWED_PROPERTIES : List String :=
  ["powerset", "some_antichains", "some_not_antichains", "some_chains",
   "some_not_chains", "surjective", "defined_everywhere", "single_valued",
   "injective", "reflexive", "irreflexive", "transitive", "asymmetric",
   "symmetric", "antisymmetric", "has_top", "height", "width",
   "has_bottom", "top", "opposite", "bottom", "lattice",
   "some_not_uppersets", "some_lowersets", "some_uppersets",
   "some_not_lowersets"]

/-- Embedding of `ALLOWED_REQUIRES` (data.py:69). -/
def ALLOWED_REQUIRES : List String :=
  ["set_product", "poset_product", "set_union", "poset_sum"]

/-- Remove key `k` from an association list (Python `dict.pop(k, ...)`;
parsed YAML dictionaries have unique keys, so removing the first
occurrence is removal of the key). -/
def removeKey {β : Type} (k : String) : List (String × β) → List (String × β)
  | [] => []
  | (k', v) :: rest =>
      if k' = k then rest else (k', v) :: removeKey k rest

/-- Embedding of Python `set(ks) - set(allowed)`: the offending keys,
deduplicated (set
semantics), in first-occurrence order. -/
def extraKeys (ks allowed : List String) : List String :=
  (ks.filter (fun k => !allowed.contains k)).dedup

/-- The key-value pairs of a dict value (`some` only on dicts).
The three metadata fields of a record are dictionaries in every corpus
the source is meant to load; a non-dict field value is modelled as the
error `fieldNotMapping` (Python would raise a `TypeError` from `set()`
on a non-iterable there). -/
def Val.asMap : Val → Option (List (String × Val))
  | Val.map kvs => some kvs
  | _ => Option.none

/-- Processing of one raw record `(k, v)` inside the loop of
`get_all_test_data` (data.py:120): pop `tags`, `data` (missing `data`
is an error), `requires`, `properties`; reject leftover fields; then
reject extra `requires`, `properties`, `tags` keys, in that order. -/
def processRecord (k : String) (v : Val) : Except LoadErr TestData :=
  match v with
  | Val.map kvs =>
      let tagsV := (alookup "tags" kvs).getD (Val.map [])
      let r1 := removeKey "tags" kvs
      match alookup "data" r1 with
      | Option.none => Except.error (LoadErr.missingData k)
      | some data =>
          let r2 := removeKey "data" r1
          let reqV := (alookup "requires" r2).getD (Val.map [])
          let r3 := removeKey "requires" r2
          let propV := (alookup "properties" r3).getD (Val.map [])
          let r4 := removeKey "properties" r3
          if r4.isEmpty then
            match tagsV.asMap, reqV.asMap, propV.asMap with
            | some tags, some reqs, some props =>
                let er := extraKeys (reqs.map Prod.fst) ALLOWED_REQUIRES
                if er.isEmpty then
                  let ep := extraKeys (props.map Prod.fst) ALLOWED_PROPERTIES
                  if ep.isEmpty then
                    let et := extraKeys (tags.map Prod.fst) ALLOWED_TAGS
                    if et.isEmpty then
                      Except.ok ⟨tags, reqs, data, props⟩
                    else Except.error (LoadErr.extraTags et)
                  else Except.error (LoadErr.extraProperties ep)
                else Except.error (LoadErr.extraRequires er)
            | _, _, _ => Except.error LoadErr.fieldNotMapping
          else Except.error (LoadErr.unknownFields (r4.map Prod.fst))
  | _ => Except.error LoadErr.recordNotMapping

/-- The record loop of `get_all_test_data` (data.py:109): `res` is the
accumulated corpus; each incoming pair is first checked against the
accumulated keys (duplicate is a hard error naming the key), then
processed and appended. -/
def loadRecordsAux (res : List (String × TestData)) :
    List (String × Val) → Except LoadErr (List (String × TestData))
  | [] => Except.ok res
  | (k, v) :: rest =>
      if (res.map Prod.fst).contains k then
        Except.error (LoadErr.duplicateKey k)
      else
        match processRecord k v with
        | Except.error e => Except.error e
        | Except.ok td => loadRecordsAux (res ++ [(k, td)]) rest

/-- The substitution pass of `get_all_test_data` (data.py:152) over an
already-validated corpus, against the fixed `entries` snapshot. -/
def resolvePassAux (entries : List (String × Val)) :
    List (String × TestData) → Except LoadErr (List (String × TestData))
  | [] => Except.ok []
  | (k, td) :: rest =>
      match substitute entries td.data with
      | Except.error e => Except.error e
      | Except.ok d =>
          match resolvePassAux entries rest with
          | Except.error e => Except.error e
          | Except.ok rest' => Except.ok ((k, { td with data := d }) :: rest')

/-- The substitution pass of `get_all_test_data` (data.py:152):
`entries` is the snapshot `{k: v.data for k, v in res.items()}` of the
*unresolved* data of every record, taken before any substitution, and
each record's data is substituted exactly once against it. -/
def resolvePass (res : List (String × TestData)) :
    Except LoadErr (List (String × TestData)) :=
  resolvePassAux (res.map (fun kv => (kv.1, kv.2.data))) res

/-- Embedding of `get_all_test_data` (data.py:91) from the parsed
files onward: `files` is the list of parsed YAML documents, each a
mapping from fixture key to raw record.  Records are accumulated across
files in order, then the substitution pass runs once. -/
def get_all_test_data (files : List (List (String × Val))) :
    Except LoadErr (List (String × TestData)) :=
  match loadRecordsAux [] files.flatten with
  | Except.error e => Except.error e
  | Except.ok res => resolvePass res

/-- A scalar in the sense of `substitute`'s dispatch (data.py:161):
neither a dict nor a list. -/
def Val.isScalar : Val → Bool
  | Val.map _ => false
  | Val.list _ => false
  | _ => true

mutual
/-- Whether a value still contains an unresolved cross-reference node,
i.e. a dict with a `"load"` key, at any depth. -/
def containsLoad : Val → Bool
  | Val.map kvs => (alookup "load" kvs).isSome || containsLoadKVs kvs
  | Val.list xs => containsLoadList xs
  | _ => false

/-- The predicate `containsLoad` over the elements of a list value. -/
def containsLoadList : List Val → Bool
  | [] => false
  | x :: xs => containsLoad x || containsLoadList xs

/-- The predicate `containsLoad` over the values of a dict value. -/
def containsLoadKVs : List (String × Val) → Bool
  | [] => false
  | (_, v) :: kvs => containsLoad v || containsLoadKVs kvs
end

/-- C1: for every corpus `entries` and key `s` present in it, applying
`substitute` to a dict node containing the key `"load"` with value `s`
returns `entries[s]` itself (hence structurally equal), and every other
key of that dict is ignored: the replacement is total, not merged. -/
theorem substitute_load_total_replacement (entries kvs : List (String × Val))
    (s : String) (d : Val)
    (hload : alookup "load" kvs = some (Val.str s))
    (hs : alookup s entries = some d) :
    substitute entries (Val.map kvs) = Except.ok d := by
  simp [substitute, hload, hs]

theorem substitute_load_total_replacement_witness :
    substitute [("X", Val.int 7)]
      (Val.map [("load", Val.str "X"), ("ignored", Val.str "junk")]) =
      Except.ok (Val.int 7) :=
  substitute_load_total_replacement [("X", Val.int 7)]
    [("load", Val.str "X"), ("ignored", Val.str "junk")] "X" (Val.int 7) rfl rfl

/-- C7: `check_good_output` on any tuple value records exactly one
violation, the tuple-specific diagnostic (advising lists instead of
tuples) rather than the generic disallowed-type one, and does not
recurse into the tuple's elements. -/
theorem check_good_output_tuple_specific (xs : List Val) :
    check_good_output (Val.tuple xs) =
      [Violation.tupleNotAllowed (Val.tuple xs)] := by
  rw [check_good_output]

/-- C8: when the loader raises `NotImplementedError`, `loadit_` lets it
propagate unchanged: no failure is recorded on the test context and no
`ImplementationFail` is raised. -/
theorem loadit_not_implemented_propagates (tc0 : List Failure) (K : Val → Bool) :
    loadit_ tc0 K (Except.error PyExc.notImplementedError) =
      (tc0, VerbOutcome.propagate PyExc.notImplementedError) := by
  rw [loadit_]

/-- C10: `loadit_` converts every exception other than
`NotImplementedError` — including `BaseException` subclasses that are
not `Exception`, such as `KeyboardInterrupt` and `SystemExit` — into a
recorded failure plus `ImplementationFail`, while `dumpit_` catches only
`Exception`, so those `BaseException` subclasses raised by `save`
propagate unconverted, with no failure recorded. -/
theorem loadit_catches_base_dumpit_does_not (tc0 : List Failure)
    (K : Val → Bool) (e : PyExc) :
    (e ≠ PyExc.notImplementedError →
      loadit_ tc0 K (Except.error e) =
        (tc0 ++ [if e = PyExc.invalidFormat then Failure.loadInvalidFormat
                 else Failure.loadRaised e],
         VerbOutcome.implementationFail)) ∧
    (e.isException = false →
      dumpit_ tc0 (Except.error e) = (tc0, VerbOutcome.propagate e)) := by
  constructor
  · intro hne
    cases e <;> simp_all [loadit_]
  · intro hbase
    cases e <;> simp_all [dumpit_, PyExc.isException]

theorem loadit_catches_base_dumpit_does_not_witness :
    loadit_ [] (fun _ => true) (Except.error PyExc.keyboardInterrupt) =
      ([Failure.loadRaised PyExc.keyboardInterrupt],
       VerbOutcome.implementationFail) ∧
    dumpit_ [] (Except.error PyExc.keyboardInterrupt) =
      ([], VerbOutcome.propagate PyExc.keyboardInterrupt) := by
  constructor
  · have h :=
      (loadit_catches_base_dumpit_does_not [] (fun _ => true)
        PyExc.keyboardInterrupt).1 (by decide)
    simpa using h
  · exact (loadit_catches_base_dumpit_does_not [] (fun _ => true)
      PyExc.keyboardInterrupt).2 rfl

/-- Successful `substituteKVs` relates input and output pointwise:
each key is preserved, each value resolves to the output value. -/
theorem substituteKVs_forall₂ (entries : List (String × Val))
    (kvs kvs' : List (String × Val))
    (h : substituteKVs entries kvs = Except.ok kvs') :
    List.Forall₂ (fun kv kv' : String × Val =>
      kv'.1 = kv.1 ∧ substitute entries kv.2 = Except.ok kv'.2) kvs kvs' := by
  induction kvs generalizing kvs' with
  | nil =>
      simp only [substituteKVs, Except.ok.injEq] at h
      subst h
      exact List.Forall₂.nil
  | cons kv rest ih =>
      obtain ⟨k, v⟩ := kv
      cases hv : substitute entries v with
      | error e => simp [substituteKVs, hv] at h
      | ok v' =>
          cases hr : substituteKVs entries rest with
          | error e => simp [substituteKVs, hv, hr] at h
          | ok rest' =>
              simp only [substituteKVs, hv, hr, Except.ok.injEq] at h
              subst h
              exact List.Forall₂.cons ⟨rfl, hv⟩ (ih rest' hr)

/-- Successful `substituteList` relates input and output pointwise. -/
theorem substituteList_forall₂ (entries : List (String × Val))
    (xs xs' : List Val)
    (h : substituteList entries xs = Except.ok xs') :
    List.Forall₂ (fun x x' => substitute entries x = Except.ok x') xs xs' := by
  induction xs generalizing xs' with
  | nil =>
      simp only [substituteList, Except.ok.injEq] at h
      subst h
      exact List.Forall₂.nil
  | cons x rest ih =>
      cases hv : substitute entries x with
      | error e => simp [substituteList, hv] at h
      | ok x' =>
          cases hr : substituteList entries rest with
          | error e => simp [substituteList, hv, hr] at h
          | ok rest' =>
              simp only [substituteList, hv, hr, Except.ok.injEq] at h
              subst h
              exact List.Forall₂.cons hv (ih rest' hr)

/-- Keys are preserved, in order, by any relation that preserves each
pair's key. -/
theorem keys_eq_of_forall₂ {Q : Val → Val → Prop}
    (kvs kvs' : List (String × Val))
    (h : List.Forall₂ (fun kv kv' : String × Val =>
      kv'.1 = kv.1 ∧ Q kv.2 kv'.2) kvs kvs') :
    kvs'.map Prod.fst = kvs.map Prod.fst := by
  induction h with
  | nil => rfl
  | cons h₁ _ ih => simp [h₁.1, ih]

/-- C2: `substitute` is the identity on every scalar (non-dict,
non-list) node, and recurses structurally otherwise: on a dict without
a `"load"` key it returns a dict with the same keys in the same order
whose values are the resolutions of the original values, and on a list
it returns a list of the same length whose elements are the resolutions
of the original elements, in order. -/
theorem substitute_structural (entries : List (String × Val)) :
    (∀ v : Val, v.isScalar = true → substitute entries v = Except.ok v) ∧
    (∀ kvs kvs' : List (String × Val), alookup "load" kvs = Option.none →
        substitute entries (Val.map kvs) = Except.ok (Val.map kvs') →
        kvs'.map Prod.fst = kvs.map Prod.fst ∧
        List.Forall₂ (fun kv kv' : String × Val =>
          kv'.1 = kv.1 ∧ substitute entries kv.2 = Except.ok kv'.2) kvs kvs') ∧
    (∀ xs xs' : List Val,
        substitute entries (Val.list xs) = Except.ok (Val.list xs') →
        xs'.length = xs.length ∧
        List.Forall₂ (fun x x' => substitute entries x = Except.ok x') xs xs') := by
  refine ⟨?_, ?_, ?_⟩
  · intro v hv
    cases v <;> simp_all [substitute, Val.isScalar]
  · intro kvs kvs' hload hsub
    cases hk : substituteKVs entries kvs with
    | error e => simp [substitute, hload, hk] at hsub
    | ok l =>
        simp only [substitute, hload, hk, Except.ok.injEq, Val.map.injEq] at hsub
        subst hsub
        have hf := substituteKVs_forall₂ entries kvs l hk
        exact ⟨keys_eq_of_forall₂
          (Q := fun a b => substitute entries a = Except.ok b) kvs l hf, hf⟩
  · intro xs xs' hsub
    cases hk : substituteList entries xs with
    | error e => simp [substitute, hk] at hsub
    | ok l =>
        simp only [substitute, hk, Except.ok.injEq, Val.list.injEq] at hsub
        subst hsub
        exact ⟨(substituteList_forall₂ entries xs l hk).length_eq.symm,
               substituteList_forall₂ entries xs l hk⟩

theorem substitute_structural_witness :
    substitute [("B", Val.int 9)] (Val.str "hello") =
      Except.ok (Val.str "hello") ∧
    [("a", Val.int 9)].map Prod.fst =
      [("a", Val.map [("load", Val.str "B")])].map Prod.fst ∧
    ([Val.int 9] : List Val).length =
      [Val.map [("load", Val.str "B")]].length := by
  refine ⟨(substitute_structural [("B", Val.int 9)]).1 (Val.str "hello") rfl,
    ?_, ?_⟩
  · exact ((substitute_structural [("B", Val.int 9)]).2.1
      [("a", Val.map [("load", Val.str "B")])] [("a", Val.int 9)] rfl rfl).1
  · exact ((substitute_structural [("B", Val.int 9)]).2.2
      [Val.map [("load", Val.str "B")]] [Val.int 9] rfl).1

/-- A key absent from an association list's key list looks up to
`none`. -/
theorem alookup_eq_none {β : Type} (k : String) (l : List (String × β))
    (h : k ∉ l.map Prod.fst) : alookup k l = Option.none := by
  induction l with
  | nil => rfl
  | cons kv rest ih =>
      obtain ⟨k', v⟩ := kv
      simp only [List.map_cons, List.mem_cons, not_or] at h
      rw [alookup, if_neg (fun hh => h.1 hh.symm)]
      exact ih h.2

/-- The test `setEqSingleton` (Python `set(ks) == {r}`) is exactly
key-set equality with the singleton `{r}`. -/
theorem setEqSingleton_iff (ks : List String) (r : String) :
    setEqSingleton ks r = true ↔ ks.toFinset = {r} := by
  constructor
  · intro h
    simp only [setEqSingleton, Bool.and_eq_true] at h
    obtain ⟨hne, hall⟩ := h
    have hall' : ∀ x ∈ ks, x = r := by simpa using hall
    have hmem : r ∈ ks := by
      cases ks with
      | nil => simp [List.isEmpty] at hne
      | cons a t =>
          have ha := hall' a (List.mem_cons_self a t)
          exact ha ▸ List.mem_cons_self a t
    apply Finset.ext
    intro x
    simp only [List.mem_toFinset, Finset.mem_singleton]
    exact ⟨fun hx => hall' x hx, fun hx => hx ▸ hmem⟩
  · intro h
    have hmem : r ∈ ks := by
      rw [← List.mem_toFinset, h]
      exact Finset.mem_singleton_self r
    have hall : ∀ x ∈ ks, x = r := by
      intro x hx
      have hx' : x ∈ ks.toFinset := List.mem_toFinset.mpr hx
      rw [h] at hx'
      exact Finset.mem_singleton.mp hx'
    cases ks with
    | nil => cases hmem
    | cons a t =>
        simp only [setEqSingleton, Bool.and_eq_true]
        exact ⟨by simp [List.isEmpty], by simpa using hall⟩

/-- C4: for every corpus with (dictionary-like) distinct keys and every
requirement `req`, `filter_reqs` returns exactly the records whose
`requires` key set equals the singleton `{req}`: a record whose
requires key set is empty, or contains `req` together with any other
key, is excluded, and every record whose key set is exactly `{req}` is
included. -/
theorem filter_reqs_exact_singleton (d : List (String × TestData)) (req : String)
    (hnd : (d.map Prod.fst).Nodup) (k : String) (v : TestData) :
    alookup k (filter_reqs d req) = some v ↔
      alookup k d = some v ∧ (v.requires.map Prod.fst).toFinset = {req} := by
  induction d with
  | nil => simp [filter_reqs, alookup]
  | cons kv rest ih =>
      obtain ⟨k', v'⟩ := kv
      simp only [List.map_cons, List.nodup_cons] at hnd
      have ih' := ih hnd.2
      simp only [filter_reqs] at ih' ⊢
      by_cases hcond : setEqSingleton (v'.requires.map Prod.fst) req = true
      · rw [List.filter_cons_of_pos (by simpa using hcond)]
        rw [alookup, alookup]
        by_cases hk : k' = k
        · rw [if_pos hk, if_pos hk]
          constructor
          · intro h
            refine ⟨h, ?_⟩
            cases Option.some.inj h
            exact (setEqSingleton_iff _ _).mp hcond
          · exact fun h => h.1
        · rw [if_neg hk, if_neg hk]
          exact ih'
      · rw [List.filter_cons_of_neg (by simpa using hcond)]
        rw [alookup]
        by_cases hk : k' = k
        · subst hk
          rw [if_pos rfl]
          have hnone : alookup k' (rest.filter
              (fun kv => setEqSingleton (kv.2.requires.map Prod.fst) req)) =
              Option.none := by
            apply alookup_eq_none
            intro hmem
            obtain ⟨x, hxf, hfx⟩ := List.mem_map.mp hmem
            exact hnd.1 (List.mem_map.mpr ⟨x, List.mem_of_mem_filter hxf, hfx⟩)
          rw [hnone]
          constructor
          · intro h; cases h
          · rintro ⟨h1, h2⟩
            cases Option.some.inj h1
            exact absurd ((setEqSingleton_iff _ _).mpr h2) hcond
        · rw [if_neg hk]
          exact ih'

theorem filter_reqs_exact_singleton_witness :
    alookup "a" (filter_reqs
      [("a", ⟨[], [("set_union", Val.bool true)], Val.int 1, []⟩),
       ("b", ⟨[], [], Val.int 2, []⟩),
       ("c", ⟨[], [("set_union", Val.bool true), ("poset_sum", Val.bool true)],
             Val.int 3, []⟩)]
      "set_union") = some ⟨[], [("set_union", Val.bool true)], Val.int 1, []⟩ :=
  (filter_reqs_exact_singleton _ "set_union" (by simp) "a" _).mpr
    ⟨rfl, by decide⟩

/-- C9: `filter_reqs` selects records solely by the key set of their
`requires` dict and ignores the boolean values: a record whose requires
dict is `{req: b}` is included in the result for `req` whatever the
value `b` is — `{req: False}` exactly as `{req: True}`. -/
theorem filter_reqs_ignores_values (d : List (String × TestData))
    (req k : String) (b : Bool) (td : TestData)
    (hreq : td.requires = [(req, Val.bool b)])
    (hmem : (k, td) ∈ d) : (k, td) ∈ filter_reqs d req := by
  apply List.mem_filter.mpr
  exact ⟨hmem, by simp [setEqSingleton, hreq]⟩

theorem filter_reqs_ignores_values_witness :
    ("k", (⟨[], [("set_union", Val.bool false)], Val.int 1, []⟩ : TestData)) ∈
      filter_reqs [("k", ⟨[], [("set_union", Val.bool false)], Val.int 1, []⟩)]
        "set_union" :=
  filter_reqs_ignores_values _ "set_union" "k" false _ rfl (by simp)

/-- Looking up in the `entries` snapshot `{k: v.data for k, v in res}`
is looking up the record and projecting its (unresolved) data. -/
theorem alookup_map_data (res : List (String × TestData)) (B : String) :
    alookup B (res.map (fun kv => (kv.1, kv.2.data))) =
      (alookup B res).map TestData.data := by
  induction res with
  | nil => rfl
  | cons kv rest ih =>
      obtain ⟨k, td⟩ := kv
      rw [List.map_cons, alookup, alookup]
      by_cases h : k = B
      · rw [if_pos h, if_pos h]; rfl
      · rw [if_neg h, if_neg h]; exact ih

/-- A successful substitution pass transforms the record found at any
key by one application of `substitute` against the fixed `entries`. -/
theorem resolvePassAux_alookup (entries : List (String × Val))
    (res res' : List (String × TestData)) (A : String) (tdA : TestData)
    (h : resolvePassAux entries res = Except.ok res')
    (hA : alookup A res = some tdA) :
    ∃ d, substitute entries tdA.data = Except.ok d ∧
      alookup A res' = some { tdA with data := d } := by
  induction res generalizing res' with
  | nil => simp [alookup] at hA
  | cons kv rest ih =>
      obtain ⟨k, td⟩ := kv
      cases hs : substitute entries td.data with
      | error e => simp [resolvePassAux, hs] at h
      | ok d0 =>
          cases hr : resolvePassAux entries rest with
          | error e => simp [resolvePassAux, hs, hr] at h
          | ok rest' =>
              simp only [resolvePassAux, hs, hr, Except.ok.injEq] at h
              subst h
              rw [alookup] at hA
              rw [alookup]
              by_cases hk : k = A
              · rw [if_pos hk] at hA ⊢
                cases Option.some.inj hA
                exact ⟨d0, hs, rfl⟩
              · rw [if_neg hk] at hA ⊢
                exact ih rest' hr hA

/-- C3: the substitution pass of `get_all_test_data` resolves each
record's data exactly once against the *unresolved* data of every
record: if record `A`'s data is a reference to record `B`, whose own
data still contains a `{"load": ...}` node, then after the pass `A`'s
resolved data is `B`'s unresolved data verbatim and therefore still
contains that unresolved load node. -/
theorem resolve_uses_unresolved_entries (res res' : List (String × TestData))
    (A B : String) (tdA tdB : TestData)
    (hA : alookup A res = some tdA)
    (hdataA : tdA.data = Val.map [("load", Val.str B)])
    (hB : alookup B res = some tdB)
    (hres : resolvePass res = Except.ok res')
    (hnested : containsLoad tdB.data = true) :
    alookup A res' = some { tdA with data := tdB.data } ∧
    containsLoad ({ tdA with data := tdB.data } : TestData).data = true := by
  have hres' : resolvePassAux (res.map fun kv => (kv.1, kv.2.data)) res =
      Except.ok res' := hres
  obtain ⟨d, hsub, hlook⟩ :=
    resolvePassAux_alookup (res.map fun kv => (kv.1, kv.2.data)) res res' A tdA
      hres' hA
  have hentry : alookup B (res.map fun kv => (kv.1, kv.2.data)) =
      some tdB.data := by
    rw [alookup_map_data, hB]; rfl
  have hsub' : substitute (res.map fun kv => (kv.1, kv.2.data)) tdA.data =
      Except.ok tdB.data := by
    rw [hdataA]
    simp [substitute, alookup, hentry]
  cases Except.ok.inj (hsub.symm.trans hsub')
  exact ⟨hlook, hnested⟩

theorem resolve_uses_unresolved_entries_witness :
    alookup "A" [("A", ⟨[], [], Val.map [("load", Val.str "C")], []⟩),
                 ("B", ⟨[], [], Val.int 5, []⟩),
                 ("C", ⟨[], [], Val.int 5, []⟩)] =
      some (⟨[], [], Val.map [("load", Val.str "C")], []⟩ : TestData) ∧
    containsLoad ((⟨[], [], Val.map [("load", Val.str "C")], []⟩ :
      TestData)).data = true :=
  resolve_uses_unresolved_entries
    [("A", ⟨[], [], Val.map [("load", Val.str "B")], []⟩),
     ("B", ⟨[], [], Val.map [("load", Val.str "C")], []⟩),
     ("C", ⟨[], [], Val.int 5, []⟩)]
    [("A", ⟨[], [], Val.map [("load", Val.str "C")], []⟩),
     ("B", ⟨[], [], Val.int 5, []⟩),
     ("C", ⟨[], [], Val.int 5, []⟩)]
    "A" "B"
    ⟨[], [], Val.map [("load", Val.str "B")], []⟩
    ⟨[], [], Val.map [("load", Val.str "C")], []⟩
    rfl rfl rfl rfl rfl

/-- If every incoming record is individually valid but the accumulated
and incoming keys contain a duplicate, the record loop of
`get_all_test_data` stops with a duplicate-key error naming a key that
indeed occurs twice. -/
theorem loadRecordsAux_dup :
    ∀ (pairs : List (String × Val)) (res : List (String × TestData)),
    (∀ p ∈ pairs, ∃ td, processRecord p.1 p.2 = Except.ok td) →
    ¬ (res.map Prod.fst ++ pairs.map Prod.fst).Nodup →
    (res.map Prod.fst).Nodup →
    ∃ k', loadRecordsAux res pairs = Except.error (LoadErr.duplicateKey k') ∧
      2 ≤ (res.map Prod.fst ++ pairs.map Prod.fst).count k' := by
  intro pairs
  induction pairs with
  | nil =>
      intro res hok hdup hres
      simp only [List.map_nil, List.append_nil] at hdup
      exact absurd hres hdup
  | cons kv rest ih =>
      intro res hok hdup hres
      obtain ⟨k, v⟩ := kv
      by_cases hc : (res.map Prod.fst).contains k = true
      · refine ⟨k, by rw [loadRecordsAux, if_pos hc], ?_⟩
        have hmem : k ∈ res.map Prod.fst := by simpa using hc
        have hca : 0 < (res.map Prod.fst).count k := List.count_pos_iff.mpr hmem
        simp only [List.map_cons, List.count_append, List.count_cons_self]
        omega
      · have hmem : k ∉ res.map Prod.fst := by simpa using hc
        obtain ⟨td, htd⟩ := hok (k, v) (List.mem_cons_self _ _)
        have htd' : processRecord k v = Except.ok td := htd
        have hstep : loadRecordsAux res ((k, v) :: rest) =
            loadRecordsAux (res ++ [(k, td)]) rest := by
          rw [loadRecordsAux, if_neg hc, htd']
        have hkeys : (res ++ [(k, td)]).map Prod.fst ++ rest.map Prod.fst =
            res.map Prod.fst ++ List.map Prod.fst ((k, v) :: rest) := by
          simp
        have hok' : ∀ p ∈ rest, ∃ td, processRecord p.1 p.2 = Except.ok td :=
          fun p hp => hok p (List.mem_cons_of_mem _ hp)
        have hdup' : ¬ ((res ++ [(k, td)]).map Prod.fst ++
            rest.map Prod.fst).Nodup := by
          rw [hkeys]; exact hdup
        have hres' : ((res ++ [(k, td)]).map Prod.fst).Nodup := by
          rw [List.map_append]
          refine List.Nodup.append hres (List.nodup_singleton k) ?_
          intro a ha hb
          simp only [List.map_cons, List.map_nil, List.mem_singleton] at hb
          exact hmem (hb ▸ ha)
        obtain ⟨k', herr, hcount⟩ := ih (res ++ [(k, td)]) hok' hdup' hres'
        refine ⟨k', hstep.trans herr, ?_⟩
        rw [← hkeys]
        exact hcount

/-- C5: for every parsed fixture set in which the same fixture key
occurs in two different files (here: files `f1` and `f2` at distinct
positions of `files`), and whose records are each individually valid,
`get_all_test_data` fails with a duplicate-key error naming a key that
occurs (at least) twice, rather than letting either occurrence win. -/
theorem load_duplicate_key_across_files
    (files F G H : List (List (String × Val))) (f1 f2 : List (String × Val))
    (k : String)
    (hfiles : files = F ++ f1 :: (G ++ f2 :: H))
    (h1 : k ∈ f1.map Prod.fst) (h2 : k ∈ f2.map Prod.fst)
    (hok : ∀ p ∈ files.flatten, ∃ td, processRecord p.1 p.2 = Except.ok td) :
    ∃ k', 2 ≤ (files.flatten.map Prod.fst).count k' ∧
      get_all_test_data files = Except.error (LoadErr.duplicateKey k') := by
  subst hfiles
  have hdupcount :
      2 ≤ (((F ++ f1 :: (G ++ f2 :: H)).flatten.map Prod.fst).count k) := by
    have c1 : 0 < (f1.map Prod.fst).count k := List.count_pos_iff.mpr h1
    have c2 : 0 < (f2.map Prod.fst).count k := List.count_pos_iff.mpr h2
    simp only [List.flatten_append, List.flatten_cons, List.map_append,
      List.count_append]
    omega
  have hdup : ¬ (([] : List (String × TestData)).map Prod.fst ++
      ((F ++ f1 :: (G ++ f2 :: H)).flatten.map Prod.fst)).Nodup := by
    simp only [List.map_nil, List.nil_append]
    intro hnd
    have hle := List.nodup_iff_count_le_one.mp hnd k
    omega
  obtain ⟨k', herr, hcount⟩ :=
    loadRecordsAux_dup ((F ++ f1 :: (G ++ f2 :: H)).flatten) [] hok hdup
      (by simp)
  refine ⟨k', by simpa using hcount, ?_⟩
  rw [get_all_test_data, herr]

theorem load_duplicate_key_across_files_witness :
    2 ≤ (([[("a", Val.map [("data", Val.int 1)])],
           [("a", Val.map [("data", Val.int 2)])]] :
        List (List (String × Val))).flatten.map Prod.fst).count "a" ∧
      get_all_test_data [[("a", Val.map [("data", Val.int 1)])],
                         [("a", Val.map [("data", Val.int 2)])]] =
        Except.error (LoadErr.duplicateKey "a") := by
  have hok : ∀ p ∈ ([[("a", Val.map [("data", Val.int 1)])],
      [("a", Val.map [("data", Val.int 2)])]] :
      List (List (String × Val))).flatten,
      ∃ td, processRecord p.1 p.2 = Except.ok td := by
    intro p hp
    have hp' : p = ("a", Val.map [("data", Val.int 1)]) ∨
        p = ("a", Val.map [("data", Val.int 2)]) := by simpa using hp
    rcases hp' with h | h <;> subst h
    · exact ⟨⟨[], [], Val.int 1, []⟩, rfl⟩
    · exact ⟨⟨[], [], Val.int 2, []⟩, rfl⟩
  obtain ⟨k', hcount, herr⟩ := load_duplicate_key_across_files _ [] [] []
    [("a", Val.map [("data", Val.int 1)])]
    [("a", Val.map [("data", Val.int 2)])] "a" rfl (by simp) (by simp) hok
  have h2 : get_all_test_data [[("a", Val.map [("data", Val.int 1)])],
      [("a", Val.map [("data", Val.int 2)])]] =
      Except.error (LoadErr.duplicateKey "a") := rfl
  have hk : k' = "a" :=
    LoadErr.duplicateKey.inj (Except.error.inj (herr.symm.trans h2))
  subst hk
  exact ⟨hcount, herr⟩

/-- The function `extraKeys` computes exactly the set difference between a
record's
key set and the whitelist (Python `set(keys) - set(allowed)`). -/
theorem extraKeys_toFinset (ks allowed : List String) :
    (extraKeys ks allowed).toFinset = ks.toFinset \ allowed.toFinset := by
  apply Finset.ext
  intro x
  simp [extraKeys, List.mem_filter]

/-- If the records before position `i` are all valid with distinct keys
(all distinct from `k` too) and the record at position `i` fails, the
record loop fails with that record's error. -/
theorem loadRecordsAux_error_lift (k : String) (v : Val)
    (post : List (String × Val)) (e : LoadErr)
    (hpr : processRecord k v = Except.error e) :
    ∀ (pre : List (String × Val)) (res : List (String × TestData)),
    (∀ p ∈ pre, ∃ td, processRecord p.1 p.2 = Except.ok td) →
    ((res.map Prod.fst) ++ (pre.map Prod.fst ++ [k])).Nodup →
    loadRecordsAux res (pre ++ (k, v) :: post) = Except.error e := by
  intro pre
  induction pre with
  | nil =>
      intro res _ hnd
      have hk : k ∉ res.map Prod.fst := by
        have hd := List.disjoint_of_nodup_append hnd
        exact fun hmem => hd hmem (by simp)
      have hc : ¬ (res.map Prod.fst).contains k = true := by simpa using hk
      rw [List.nil_append, loadRecordsAux, if_neg hc, hpr]
  | cons q pre' ih =>
      intro res hok hnd
      obtain ⟨k', v'⟩ := q
      have hk' : k' ∉ res.map Prod.fst := by
        have hd := List.disjoint_of_nodup_append hnd
        exact fun hmem => hd hmem (by simp)
      have hc : ¬ (res.map Prod.fst).contains k' = true := by simpa using hk'
      obtain ⟨td, htd⟩ := hok (k', v') (List.mem_cons_self _ _)
      have htd' : processRecord k' v' = Except.ok td := htd
      rw [List.cons_append, loadRecordsAux, if_neg hc, htd']
      apply ih (res ++ [(k', td)]) (fun p hp => hok p (List.mem_cons_of_mem _ hp))
      have heq : (res ++ [(k', td)]).map Prod.fst ++ (pre'.map Prod.fst ++ [k]) =
          res.map Prod.fst ++ (List.map Prod.fst ((k', v') :: pre') ++ [k]) := by
        simp
      rw [heq]
      exact hnd

/-- C6: for every raw record whose `tags`, `requires` or `properties`
dict contains a key outside the corresponding whitelist (reached with
all earlier records valid and keys distinct), `get_all_test_data` fails
with a whitelist error whose payload — `extraKeys` of the offending
field — is exactly the set difference between that field's key set and
its whitelist; `requires` is checked first, then `properties`, then
`tags`. -/
theorem load_extra_whitelist_keys
    (files : List (List (String × Val)))
    (pre post : List (String × Val)) (k : String)
    (kvs tags reqs props : List (String × Val)) (data : Val)
    (hsplit : files.flatten = pre ++ (k, Val.map kvs) :: post)
    (hpreok : ∀ p ∈ pre, ∃ td, processRecord p.1 p.2 = Except.ok td)
    (hnodup : (pre.map Prod.fst ++ [k]).Nodup)
    (htags : ((alookup "tags" kvs).getD (Val.map [])).asMap = some tags)
    (hdata : alookup "data" (removeKey "tags" kvs) = some data)
    (hreqs : ((alookup "requires" (removeKey "data" (removeKey "tags"
        kvs))).getD (Val.map [])).asMap = some reqs)
    (hprops : ((alookup "properties" (removeKey "requires" (removeKey "data"
        (removeKey "tags" kvs)))).getD (Val.map [])).asMap = some props)
    (hleft : (removeKey "properties" (removeKey "requires" (removeKey "data"
        (removeKey "tags" kvs)))).isEmpty = true)
    (hextra : ¬ (extraKeys (reqs.map Prod.fst) ALLOWED_REQUIRES = [] ∧
        extraKeys (props.map Prod.fst) ALLOWED_PROPERTIES = [] ∧
        extraKeys (tags.map Prod.fst) ALLOWED_TAGS = [])) :
    (extraKeys (reqs.map Prod.fst) ALLOWED_REQUIRES).toFinset =
      (reqs.map Prod.fst).toFinset \ ALLOWED_REQUIRES.toFinset ∧
    (extraKeys (props.map Prod.fst) ALLOWED_PROPERTIES).toFinset =
      (props.map Prod.fst).toFinset \ ALLOWED_PROPERTIES.toFinset ∧
    (extraKeys (tags.map Prod.fst) ALLOWED_TAGS).toFinset =
      (tags.map Prod.fst).toFinset \ ALLOWED_TAGS.toFinset ∧
    get_all_test_data files = Except.error
      (if extraKeys (reqs.map Prod.fst) ALLOWED_REQUIRES ≠ [] then
        LoadErr.extraRequires (extraKeys (reqs.map Prod.fst) ALLOWED_REQUIRES)
      else if extraKeys (props.map Prod.fst) ALLOWED_PROPERTIES ≠ [] then
        LoadErr.extraProperties
          (extraKeys (props.map Prod.fst) ALLOWED_PROPERTIES)
      else LoadErr.extraTags (extraKeys (tags.map Prod.fst) ALLOWED_TAGS)) := by
  refine ⟨extraKeys_toFinset _ _, extraKeys_toFinset _ _,
    extraKeys_toFinset _ _, ?_⟩
  have hrec : processRecord k (Val.map kvs) = Except.error
      (if extraKeys (reqs.map Prod.fst) ALLOWED_REQUIRES ≠ [] then
        LoadErr.extraRequires (extraKeys (reqs.map Prod.fst) ALLOWED_REQUIRES)
      else if extraKeys (props.map Prod.fst) ALLOWED_PROPERTIES ≠ [] then
        LoadErr.extraProperties
          (extraKeys (props.map Prod.fst) ALLOWED_PROPERTIES)
      else LoadErr.extraTags (extraKeys (tags.map Prod.fst) ALLOWED_TAGS)) := by
    by_cases h1 : extraKeys (reqs.map Prod.fst) ALLOWED_REQUIRES = []
    · by_cases h2 : extraKeys (props.map Prod.fst) ALLOWED_PROPERTIES = []
      · by_cases h3 : extraKeys (tags.map Prod.fst) ALLOWED_TAGS = []
        · exact absurd ⟨h1, h2, h3⟩ hextra
        · simp [processRecord, hdata, htags, hreqs, hprops, hleft, h1, h2, h3]
      · simp [processRecord, hdata, htags, hreqs, hprops, hleft, h1, h2]
    · simp [processRecord, hdata, htags, hreqs, hprops, hleft, h1]
  have hlift := loadRecordsAux_error_lift k (Val.map kvs) post _ hrec pre []
    hpreok (by simpa using hnodup)
  rw [get_all_test_data, hsplit, hlift]

theorem load_extra_whitelist_keys_witness :
    get_all_test_data [[("k", Val.map [("data", Val.int 1),
        ("requires", Val.map [("bogus", Val.bool true)])])]] =
      Except.error (LoadErr.extraRequires ["bogus"]) ∧
    (["bogus"] : List String).toFinset =
      ([("bogus", Val.bool true)].map Prod.fst).toFinset \
        ALLOWED_REQUIRES.toFinset := by
  have h := load_extra_whitelist_keys
    [[("k", Val.map [("data", Val.int 1),
        ("requires", Val.map [("bogus", Val.bool true)])])]]
    [] [] "k"
    [("data", Val.int 1), ("requires", Val.map [("bogus", Val.bool true)])]
    [] [("bogus", Val.bool true)] [] (Val.int 1)
    rfl (fun p hp => absurd hp (List.not_mem_nil p)) (by simp)
    rfl rfl rfl rfl rfl (by decide)
  exact ⟨h.2.2.2.trans (by rfl), h.1⟩
